import Mathlib

/-!
Verification of the WhichAI repository: the playground CORS proxy
(`playground/proxy.py`) and the pricing refresh helper (`refresh.py`).

The proxy handler `ProxyHandler.do_POST` is embedded as a pure function
from the request path, the decoded inbound payload and the outcome of the
single outbound call to the response the handler writes, together with a
flag recording whether an outbound network call was issued.  The merge
step `merge_updates` of the refresh helper is embedded as a function from
the list of model records and the parsed update set to the mutated record
list and the list of change-description lines.
-/

/-! ## Proxy: data model -/

/-- The response an invocation of the handler writes back: the status code
passed to `send_response`, the headers the handler itself adds via
`send_header` (the underlying `http.server` machinery adds `Server` and
`Date` headers on its own; no claim concerns those), and the body bytes
written to `wfile`, modelled as a string. -/
structure HttpResponse where
  status : Nat
  headers : List (String × String)
  body : String
deriving DecidableEq, Repr

/-- Result of one `do_POST` invocation: the response written, plus whether
an outbound network call (`urlopen`) was issued to the target. -/
structure HandlerResult where
  response : HttpResponse
  outboundCall : Bool
deriving DecidableEq, Repr

/-- Outcome of the outbound `urlopen(req, timeout=120)` call when it is
made: either a successful response (status, optional `Content-Type`
header, raw body bytes) or an `HTTPError` carrying a code and the raw
error body read by `e.read()`.  Total transport failures (DNS, refused
connection) are uncaught in the source and outside every claim. -/
inductive Upstream where
  | success : Nat → Option String → String → Upstream
  | httpError : Nat → String → Upstream
deriving Repr

/-- The part of the decoded JSON payload the relayed-response claims
depend on: the value of `payload.get("url", "")`, with `none` standing
for an absent `url` field (so the default `""` applies).  The `headers`
and `body` fields only shape the outbound request and are treated
abstractly through `Upstream`. -/
structure Payload where
  url : Option String
deriving DecidableEq, Repr

/-- The inbound POST body after `json.loads`: either a decode failure
(`json.JSONDecodeError`) or a successfully decoded JSON object. -/
inductive Inbound where
  | badJson : Inbound
  | payload : Payload → Inbound
deriving Repr

/-- The fixed allowlist `ALLOWED_HOSTS` from `proxy.py`. -/
def ALLOWED_HOSTS : List String :=
  ["api.openai.com", "api.anthropic.com", "generativelanguage.googleapis.com"]

/-- The three headers added by `ProxyHandler._cors_headers`. -/
def corsHeaders : List (String × String) :=
  [("Access-Control-Allow-Origin", "*"),
   ("Access-Control-Allow-Methods", "POST, OPTIONS"),
   ("Access-Control-Allow-Headers", "Content-Type")]

/-! ## Proxy: model of `urllib.parse.urlparse(url).hostname`

`urllib.parse` is the Python standard library, not repository code; the
following definitions model its hostname extraction (CPython 3.11
`urlsplit` plus the `hostname` property).  `urlsplit` first strips
leading C0-control-or-space characters and deletes every tab, carriage
return and line feed; it then splits off a scheme only at the first `:`,
only when the part before it is nonempty, starts with an ASCII letter
and consists of scheme characters; a netloc is present only when the
remainder then starts with `//`, and runs to the first `/`, `?` or `#`.
The hostname is taken from the netloc after the last `@` — the bracketed
chunk if a `[` is present, otherwise everything before the first `:` —
lowercased (ASCII folding here), with the empty string mapped to
`None`. -/

/-- Characters of the netloc: everything up to the first `/`, `?` or `#`
(the `_splitnetloc` helper). -/
def takeUntilDelim : List Char → List Char
  | [] => []
  | c :: cs => if c = '/' ∨ c = '?' ∨ c = '#' then [] else c :: takeUntilDelim cs

/-- Python `scheme_chars`: ASCII letters, digits, `+`, `-` and `.`. -/
def isSchemeChar (c : Char) : Bool :=
  c.isAlphanum || c == '+' || c == '-' || c == '.'

/-- Scheme removal as `urlsplit` performs it: split at the first `:`
when it is preceded by a nonempty run of scheme characters starting with
an ASCII letter; otherwise leave the URL unchanged. -/
def splitScheme (cs : List Char) : List Char :=
  match cs.findIdx? (fun c => c == ':') with
  | some i =>
    if i != 0 && (cs.headD '0').isAlpha && (cs.take i).all isSchemeChar then
      cs.drop (i + 1)
    else cs
  | none => cs

/-- The netloc component after scheme removal: present only when the
remainder starts with `//`. -/
def netlocChars (cs : List Char) : List Char :=
  match cs with
  | '/' :: '/' :: rest => takeUntilDelim rest
  | _ => []

/-- Drop the userinfo part: keep only what follows the last `@`
(`netloc.rpartition`). -/
def afterLastAt (cs : List Char) : List Char :=
  (cs.reverse.takeWhile (fun c => c != '@')).reverse

/-- The host part of the netloc (the `_hostinfo` property): the chunk
between the first `[` and the following `]` when a bracket is present,
otherwise everything before the first `:`. -/
def hostFromNetloc (cs : List Char) : List Char :=
  let hostinfo := afterLastAt cs
  if hostinfo.contains '[' then
    ((hostinfo.dropWhile (fun c => c != '[')).drop 1).takeWhile (fun c => c != ']')
  else
    hostinfo.takeWhile (fun c => c != ':')

/-- Model of `urllib.parse.urlparse(url).hostname`: strip leading
C0-control-or-space characters, delete every tab, carriage return and
line feed, split off the scheme, extract the netloc and its host part,
lowercase it, and map the empty host to `None`. -/
def hostname (url : String) : Option String :=
  let cs := (url.data.dropWhile (fun c => decide (c.toNat ≤ 32))).filter
    (fun c => !(c == '\t' || c == '\r' || c == '\n'))
  let h := (hostFromNetloc (netlocChars (splitScheme cs))).map Char.toLower
  if h = [] then none else some (String.mk h)

/-- The membership test `host in ALLOWED_HOSTS` on the optional parsed
host: `None` is never a member, a string is a member exactly when it
occurs in the list. -/
def hostAllowed : Option String → Bool
  | none => false
  | some h => ALLOWED_HOSTS.contains h

/-! ## Proxy: model of `json.dumps` escaping (standard library) -/

/-- Lowercase hexadecimal digit. -/
def hexChar (n : Nat) : Char :=
  if n < 10 then Char.ofNat (48 + n) else Char.ofNat (87 + n)

/-- A `\uXXXX` escape for a 16-bit code unit. -/
def u4 (n : Nat) : String :=
  String.mk ['\\', 'u', hexChar (n / 4096 % 16), hexChar (n / 256 % 16),
             hexChar (n / 16 % 16), hexChar (n % 16)]

/-- Escaping of one character as performed by `json.dumps` in its default
`ensure_ascii` mode: quote and backslash are backslash-escaped, the short
escapes cover backspace, tab, newline, form feed and carriage return,
every other character outside printable ASCII becomes `\uXXXX` (a
surrogate pair beyond the basic plane), and printable ASCII passes
through. -/
def jsonEscChar (c : Char) : String :=
  let n := c.toNat
  if c = '"' then "\\\""
  else if c = '\\' then "\\\\"
  else if n = 8 then "\\b"
  else if n = 9 then "\\t"
  else if n = 10 then "\\n"
  else if n = 12 then "\\f"
  else if n = 13 then "\\r"
  else if n < 32 ∨ 126 < n then
    if 65535 < n then
      u4 (55296 + (n - 65536) / 1024) ++ u4 (56320 + (n - 65536) % 1024)
    else u4 n
  else String.singleton c

/-- Model of `json.dumps` string-content escaping. -/
def jsonEsc (s : String) : String :=
  String.join (s.data.map jsonEscChar)

/-- Rendering of the optional host inside the f-string
`f"Host not allowed: {host}"`: Python renders `None` as `None`. -/
def hostText : Option String → String
  | none => "None"
  | some h => h

/-- The body written on a 403 rejection:
`json.dumps` applied to the one-field object whose `error` value is the
message naming the rejected host. -/
def forbiddenBody (host : Option String) : String :=
  "\x7b\"error\": \"" ++ jsonEsc ("Host not allowed: " ++ hostText host) ++ "\"\x7d"

/-- The optional `Content-Type` header forwarded from a successful
upstream response (`resp.getheader("Content-Type")` is sent only when
non-empty). -/
def ctHeader : Option String → List (String × String)
  | some v => [("Content-Type", v)]
  | none => []

/-- Embedding of `ProxyHandler.do_POST` from `playground/proxy.py`:
any path other than `/proxy` gets a bare 404; a JSON decode failure gets
a bare 400 with the fixed error body; a payload whose parsed host is not
allowlisted gets a 403 with cross-origin headers and a body naming the
host, with no outbound call; otherwise the outbound call is made and its
outcome relayed — on success the upstream status, cross-origin headers,
the forwarded `Content-Type` when present, and the raw body; on
`HTTPError` the error code, cross-origin headers, a JSON content type,
and the raw error body. -/
def do_POST (path : String) (inbound : Inbound) (up : Upstream) : HandlerResult :=
  if path ≠ "/proxy" then
    ⟨⟨404, [], ""⟩, false⟩
  else
    match inbound with
    | .badJson => ⟨⟨400, [], "\x7b\"error\":\"Invalid JSON\"\x7d"⟩, false⟩
    | .payload p =>
      let url := p.url.getD ""
      let host := hostname url
      if hostAllowed host then
        match up with
        | .success st ct b => ⟨⟨st, corsHeaders ++ ctHeader ct, b⟩, true⟩
        | .httpError c b =>
          ⟨⟨c, corsHeaders ++ [("Content-Type", "application/json")], b⟩, true⟩
      else
        ⟨⟨403, corsHeaders, forbiddenBody host⟩, false⟩

/-! ## Proxy: theorems -/

/-- C3: a POST to `/proxy` whose body is not valid JSON is answered with
status 400 and the fixed JSON error body, and no outbound network call is
made, whatever the upstream would have answered. -/
theorem proxy_rejects_bad_json (up : Upstream) :
    do_POST "/proxy" Inbound.badJson up =
      ⟨⟨400, [], "\x7b\"error\":\"Invalid JSON\"\x7d"⟩, false⟩ := rfl

/-- C8: the 400 response to a malformed-JSON POST carries no headers
added by the handler at all — in particular no cross-origin headers and
no content-type header — unlike the 403 rejection and the relay
responses, which all add `corsHeaders`. -/
theorem proxy_bad_json_response_has_no_headers (up : Upstream) :
    (do_POST "/proxy" Inbound.badJson up).response.status = 400 ∧
    (do_POST "/proxy" Inbound.badJson up).response.headers = [] :=
  ⟨rfl, rfl⟩

/-- Scalar Python values as decoded from JSON: `int`, `float` (embedded
as the exact rational the decoded decimal denotes), `str`, `bool`,
`None`. -/
inductive PyVal where
  | vint : Int → PyVal
  | vfloat : ℚ → PyVal
  | vstr : String → PyVal
  | vbool : Bool → PyVal
  | vnone : PyVal
deriving DecidableEq, Repr

/-- A model record: a Python dict as an association list in insertion
order. -/
abbrev PyRec := List (String × PyVal)

/-- The value of one update-set entry: the partial record of newly
observed numeric fields a parser may produce, restricted to the two
fields `merge_updates` reads (`field in new_prices` is modelled by the
option being `some`). -/
structure Prices where
  input_per_mtok : Option ℚ
  output_per_mtok : Option ℚ
deriving DecidableEq, Repr

/-- Python `m.get(k)`: the value at the first (unique) occurrence of the
key, or `None` (here `none`) when absent. -/
def getField : PyRec → String → Option PyVal
  | [], _ => none
  | (k, v) :: rest, key => if k = key then some v else getField rest key

/-- Python `m[k] = v` on a dict: overwrite in place when the key exists
(order preserved), append otherwise. -/
def setField : PyRec → String → PyVal → PyRec
  | [], k, v => [(k, v)]
  | (k1, v1) :: rest, k, v =>
    if k1 = k then (k, v) :: rest else (k1, v1) :: setField rest k v

/-- Python `==` between the float produced by a parser and the stored
field value (or `None` when the field is absent): numeric values compare
by value across `int`/`float`/`bool` (a Python `bool` is an `int`);
strings and `None` never equal a float. -/
def pyEqFloat (q : ℚ) : Option PyVal → Bool
  | some (.vint n) => decide (mkRat n 1 = q)
  | some (.vfloat r) => decide (r = q)
  | some (.vbool b) => decide ((if b then mkRat 1 1 else mkRat 0 1) = q)
  | some (.vstr _) => false
  | some .vnone => false
  | none => false

/-- Pad a digit string on the left with zeros to the given width. -/
def padZeros (s : String) (k : Nat) : String :=
  String.mk (List.replicate (k - s.length) '0') ++ s

/-- Smallest number of decimal places that writes the rational exactly
(the denominator divides the matching power of ten), searched up to a
bound ample for every decimal a pricing parser can produce. -/
def decExp (q : ℚ) : Option Nat :=
  (List.range 30).find? fun k => decide (Nat.pow 10 k % q.den = 0)

/-- Rendering of a nonnegative decimal rational as Python `str` renders
the equal float: the shortest decimal expansion, with at least one
fractional digit. -/
def pyFloatStrNN (q : ℚ) : String :=
  match decExp q with
  | some 0 => toString q.num ++ ".0"
  | some (k + 1) =>
    let m := q.num.toNat * (Nat.pow 10 (k + 1) / q.den)
    toString (m / Nat.pow 10 (k + 1)) ++ "."
      ++ padZeros (toString (m % Nat.pow 10 (k + 1))) (k + 1)
  | none => toString q.num ++ "/" ++ toString q.den

/-- Model of Python `str` on a float whose value is the decimal the
source text denoted: `str(2.5) = "2.5"`, `str(2.00) = "2.0"`. -/
def pyFloatStr (q : ℚ) : String :=
  if q.num < 0 then "-" ++ pyFloatStrNN (Rat.neg q) else pyFloatStrNN q

/-- Model of Python `str` on a scalar value. -/
def pyStr : PyVal → String
  | .vint n => toString n
  | .vfloat q => pyFloatStr q
  | .vstr s => s
  | .vbool b => if b then "True" else "False"
  | .vnone => "None"

/-- Rendering of `m.get(field)` inside the change-line f-string:
an absent field prints as `None`. -/
def pyStrOpt : Option PyVal → String
  | none => "None"
  | some v => pyStr v

/-- One iteration of the inner loop of `merge_updates` for one of the two
price fields: when the field is present in the update and its value
differs (Python `!=`) from the stored one, overwrite it and produce the
change line; otherwise leave the record alone. -/
def updateField (m : PyRec) (name fld : String) (newVal : Option ℚ) : PyRec × List String :=
  match newVal with
  | none => (m, [])
  | some q =>
    if pyEqFloat q (getField m fld) then (m, [])
    else
      (setField m fld (.vfloat q),
        ["  " ++ name ++ ": " ++ fld ++ " $" ++ pyStrOpt (getField m fld)
          ++ " -> $" ++ pyFloatStr q])

/-- The inner loop of `merge_updates` over the two price fields, in
source order. -/
def updateModel (m : PyRec) (name : String) (p : Prices) : PyRec × List String :=
  let r1 := updateField m name "input_per_mtok" p.input_per_mtok
  let r2 := updateField r1.1 name "output_per_mtok" p.output_per_mtok
  (r2.1, r1.2 ++ r2.2)

/-- Whether a record is the one indexed under the given update name:
`model_index` keys records by their `model` value, and a string update
name equals that key exactly when the field holds that string. -/
def modelNameIs (m : PyRec) (name : String) : Bool :=
  decide (getField m "model" = some (PyVal.vstr name))

/-- Index of the record a dict comprehension `{m["model"]: m}` associates
to the given name: the last record whose `model` field holds it. -/
def lastIdxWithName : List PyRec → String → Option Nat
  | [], _ => none
  | m :: rest, name =>
    match lastIdxWithName rest name with
    | some i => some (i + 1)
    | none => if modelNameIs m name then some 0 else none

/-- The notice recorded for a parsed model name absent from the
dataset. -/
def newModelLine (name : String) : String :=
  "  NEW MODEL FOUND: " ++ name ++ " (add manually to data.json)"

/-- One iteration of the outer loop of `merge_updates`: mutate the
indexed record through `model_index` when the name is present, otherwise
record the new-model notice and leave the dataset alone. -/
def mergeStep (models : List PyRec) (u : String × Prices) : List PyRec × List String :=
  match lastIdxWithName models u.1 with
  | some i =>
    match models[i]? with
    | some m =>
      let r := updateModel m u.1 u.2
      (models.set i r.1, r.2)
    | none => (models, [])
  | none => (models, [newModelLine u.1])

/-- The outer loop of `merge_updates` over the update entries in
insertion order, accumulating change lines. -/
def mergeRun : List PyRec → List (String × Prices) → List PyRec × List String
  | models, [] => (models, [])
  | models, u :: rest =>
    let s := mergeStep models u
    let r := mergeRun s.1 rest
    (r.1, s.2 ++ r.2)

/-- The dict comprehension `{m["model"]: m for m in data["models"]}`
raises `KeyError` unless every record carries a `model` field; this
predicate captures the non-raising datasets. -/
def recsWf (models : List PyRec) : Bool :=
  models.all fun m => (getField m "model").isSome

/-- Embedding of `merge_updates` from `refresh.py`: on a dataset whose
records all carry a `model` field it returns the mutated record list and
the list of change descriptions; otherwise the index comprehension
raises, embedded as `none`. -/
def merge_updates (models : List PyRec) (updates : List (String × Prices)) :
    Option (List PyRec × List String) :=
  if recsWf models then some (mergeRun models updates) else none

/-! ## Refresh helper: the seven provider parsers

Every parser in `refresh.py` initializes `results = {}`, possibly prints
an informational line (side effects are outside the embedding), and
returns `results` unchanged; `parse_deepseek` additionally runs a regex
scan whose matches feed only the printed message. -/

/-- Embedding of `parse_openai`. -/
def parse_openai (_html : String) : List (String × Prices) := []

/-- Embedding of `parse_anthropic`. -/
def parse_anthropic (_html : String) : List (String × Prices) := []

/-- Embedding of `parse_google`. -/
def parse_google (_html : String) : List (String × Prices) := []

/-- Embedding of `parse_mistral`. -/
def parse_mistral (_html : String) : List (String × Prices) := []

/-- Embedding of `parse_deepseek`: the regex scan affects only the
printed message, never the returned mapping. -/
def parse_deepseek (_html : String) : List (String × Prices) := []

/-- Embedding of `parse_cohere`. -/
def parse_cohere (_html : String) : List (String × Prices) := []

/-- Embedding of `parse_fireworks`. -/
def parse_fireworks (_html : String) : List (String × Prices) := []

/-- The `PARSERS` dispatch table from `refresh.py`. -/
def PARSERS : List (String × (String → List (String × Prices))) :=
  [("openai", parse_openai),
   ("anthropic", parse_anthropic),
   ("google", parse_google),
   ("mistral", parse_mistral),
   ("deepseek", parse_deepseek),
   ("cohere", parse_cohere),
   ("meta_fireworks", parse_fireworks)]

/-! ## Refresh helper: lemmas about field access and update -/

/-- Setting an index to the value already stored there leaves the list
unchanged. -/
theorem listSetSame {α : Type} (l : List α) : ∀ (i : Nat) (a : α),
    l[i]? = some a → l.set i a = l := by
  induction l with
  | nil => intro i a h; exact Option.noConfusion h
  | cons x xs ih =>
    intro i a h
    cases i with
    | zero =>
      rw [List.getElem?_cons_zero] at h
      injection h with h2
      show a :: xs = x :: xs
      rw [h2]
    | succ j =>
      rw [List.getElem?_cons_succ] at h
      show x :: xs.set j a = x :: xs
      rw [ih j a h]

/-- Reading the key just written returns the written value. -/
theorem getField_setField_self (m : PyRec) (k : String) (v : PyVal) :
    getField (setField m k v) k = some v := by
  induction m with
  | nil => simp [setField, getField]
  | cons kv rest ih =>
    obtain ⟨k1, v1⟩ := kv
    by_cases h : k1 = k
    · simp [setField, h, getField]
    · simp [setField, h, getField, ih]

/-- Writing one key leaves every other key unchanged. -/
theorem getField_setField_ne (m : PyRec) (k k2 : String) (v : PyVal) (h : k2 ≠ k) :
    getField (setField m k v) k2 = getField m k2 := by
  induction m with
  | nil => simp [setField, getField, Ne.symm h]
  | cons kv rest ih =>
    obtain ⟨k1, v1⟩ := kv
    by_cases h1 : k1 = k
    · subst h1
      simp [setField, getField, Ne.symm h]
    · simp [setField, h1, getField, ih]

/-- A price-field update touches no other key of the record. -/
theorem updateField_getField_ne (m : PyRec) (name fld : String) (v : Option ℚ)
    (k : String) (h : k ≠ fld) :
    getField (updateField m name fld v).1 k = getField m k := by
  cases v with
  | none => rfl
  | some q =>
    unfold updateField
    by_cases hc : pyEqFloat q (getField m fld) = true
    · simp [hc]
    · simp [hc, getField_setField_ne m fld k _ h]

/-- After a price-field update with a value, the stored field compares
equal (Python `==`) to that value. -/
theorem updateField_sat (m : PyRec) (name fld : String) (q : ℚ) :
    pyEqFloat q (getField (updateField m name fld (some q)).1 fld) = true := by
  show pyEqFloat q (getField (if pyEqFloat q (getField m fld) = true then (m, [])
      else (setField m fld (PyVal.vfloat q),
        ["  " ++ name ++ ": " ++ fld ++ " $" ++ pyStrOpt (getField m fld)
          ++ " -> $" ++ pyFloatStr q])).1 fld) = true
  by_cases hc : pyEqFloat q (getField m fld) = true
  · rw [if_pos hc]
    exact hc
  · rw [if_neg hc]
    show pyEqFloat q (getField (setField m fld (PyVal.vfloat q)) fld) = true
    rw [getField_setField_self]
    simp [pyEqFloat]

/-- An update whose value already compares equal to the stored field is
a no-op with no change line. -/
theorem updateField_noop (m : PyRec) (name fld : String) (q : ℚ)
    (h : pyEqFloat q (getField m fld) = true) :
    updateField m name fld (some q) = (m, []) := by
  unfold updateField
  simp [h]

/-- The two-field record update touches no key outside the two price
fields. -/
theorem updateModel_getField_ne (m : PyRec) (name : String) (p : Prices) (k : String)
    (h1 : k ≠ "input_per_mtok") (h2 : k ≠ "output_per_mtok") :
    getField (updateModel m name p).1 k = getField m k := by
  show getField (updateField (updateField m name "input_per_mtok" p.input_per_mtok).1
      name "output_per_mtok" p.output_per_mtok).1 k = getField m k
  rw [updateField_getField_ne _ _ _ _ _ h2, updateField_getField_ne _ _ _ _ _ h1]

/-- Running the two-field record update a second time with the same
values changes nothing and produces no change line. -/
theorem updateModel_idem (m : PyRec) (name : String) (p : Prices) :
    updateModel (updateModel m name p).1 name p = ((updateModel m name p).1, []) := by
  set M := (updateModel m name p).1 with hM
  have hMdef : M = (updateField (updateField m name "input_per_mtok" p.input_per_mtok).1
      name "output_per_mtok" p.output_per_mtok).1 := hM
  have hin : updateField M name "input_per_mtok" p.input_per_mtok = (M, []) := by
    cases hp : p.input_per_mtok with
    | none => rfl
    | some q =>
      apply updateField_noop
      have h1 : getField M "input_per_mtok"
          = getField (updateField m name "input_per_mtok" p.input_per_mtok).1
              "input_per_mtok" := by
        rw [hMdef]
        exact updateField_getField_ne _ _ _ _ _ (by decide)
      rw [h1, hp]
      exact updateField_sat m name "input_per_mtok" q
  have hout : updateField M name "output_per_mtok" p.output_per_mtok = (M, []) := by
    cases hp : p.output_per_mtok with
    | none => rfl
    | some q =>
      apply updateField_noop
      rw [hMdef, hp]
      exact updateField_sat _ name "output_per_mtok" q
  show updateModel M name p = (M, [])
  simp [updateModel, hin, hout]

/-! ## Refresh helper: frame lemmas over the record list -/

/-- One merge step preserves the length of the record list. -/
theorem mergeStep_length (ms : List PyRec) (u : String × Prices) :
    (mergeStep ms u).1.length = ms.length := by
  cases hL : lastIdxWithName ms u.1 with
  | none => simp [mergeStep, hL]
  | some j =>
    cases hg : ms[j]? with
    | none => simp [mergeStep, hL, hg]
    | some mj => simp [mergeStep, hL, hg]

/-- One merge step touches no key outside the two price fields, at any
position of the record list. -/
theorem mergeStep_frame (ms : List PyRec) (u : String × Prices) (i : Nat) (k : String)
    (h1 : k ≠ "input_per_mtok") (h2 : k ≠ "output_per_mtok") :
    ((mergeStep ms u).1[i]?).map (fun m => getField m k)
      = (ms[i]?).map (fun m => getField m k) := by
  cases hL : lastIdxWithName ms u.1 with
  | none => simp [mergeStep, hL]
  | some j =>
    cases hg : ms[j]? with
    | none => simp [mergeStep, hL, hg]
    | some mj =>
      by_cases hij : j = i
      · subst hij
        have hlt : j < ms.length := by
          rcases List.getElem?_eq_some_iff.mp hg with ⟨h, _⟩
          exact h
        simp [mergeStep, hL, hg, List.getElem?_set_self hlt,
          updateModel_getField_ne mj u.1 u.2 k h1 h2]
      · simp [mergeStep, hL, hg, List.getElem?_set_ne hij]

/-- A whole merge run preserves the length of the record list. -/
theorem mergeRun_length (us : List (String × Prices)) : ∀ (ms : List PyRec),
    (mergeRun ms us).1.length = ms.length := by
  induction us with
  | nil => intro ms; rfl
  | cons u rest ih =>
    intro ms
    show (mergeRun (mergeStep ms u).1 rest).1.length = ms.length
    rw [ih (mergeStep ms u).1, mergeStep_length]

/-- A whole merge run touches no key outside the two price fields, at any
position of the record list. -/
theorem mergeRun_frame (us : List (String × Prices)) : ∀ (ms : List PyRec) (i : Nat) (k : String),
    k ≠ "input_per_mtok" → k ≠ "output_per_mtok" →
    ((mergeRun ms us).1[i]?).map (fun m => getField m k)
      = (ms[i]?).map (fun m => getField m k) := by
  induction us with
  | nil => intro ms i k _ _; rfl
  | cons u rest ih =>
    intro ms i k h1 h2
    show ((mergeRun (mergeStep ms u).1 rest).1[i]?).map (fun m => getField m k)
      = (ms[i]?).map (fun m => getField m k)
    rw [ih (mergeStep ms u).1 i k h1 h2, mergeStep_frame ms u i k h1 h2]

/-- Two record lists of the same length whose records agree pointwise on
the `model` field index every name at the same position. -/
theorem lastIdx_congr (ms : List PyRec) : ∀ (ms2 : List PyRec),
    ms.length = ms2.length →
    (∀ (i : Nat), (ms[i]?).map (fun m => getField m "model")
        = (ms2[i]?).map (fun m => getField m "model")) →
    ∀ n, lastIdxWithName ms n = lastIdxWithName ms2 n := by
  induction ms with
  | nil =>
    intro ms2 hlen _ n
    cases ms2 with
    | nil => rfl
    | cons _ _ => simp at hlen
  | cons m rest ih =>
    intro ms2 hlen hpt n
    cases ms2 with
    | nil => simp at hlen
    | cons m2 rest2 =>
      have h0 := hpt 0
      simp at h0
      have htail : lastIdxWithName rest n = lastIdxWithName rest2 n :=
        ih rest2 (by simpa using hlen) (fun i => by simpa using hpt (i + 1)) n
      have hmn : modelNameIs m n = modelNameIs m2 n := by
        unfold modelNameIs
        rw [h0]
      simp only [lastIdxWithName]
      rw [htail, hmn]

/-- Two record lists of the same length whose records agree pointwise on
the `model` field agree on well-formedness. -/
theorem recsWf_congr (ms : List PyRec) : ∀ (ms2 : List PyRec),
    ms.length = ms2.length →
    (∀ (i : Nat), (ms[i]?).map (fun m => getField m "model")
        = (ms2[i]?).map (fun m => getField m "model")) →
    recsWf ms = recsWf ms2 := by
  induction ms with
  | nil =>
    intro ms2 hlen _
    cases ms2 with
    | nil => rfl
    | cons _ _ => simp at hlen
  | cons m rest ih =>
    intro ms2 hlen hpt
    cases ms2 with
    | nil => simp at hlen
    | cons m2 rest2 =>
      have h0 := hpt 0
      simp at h0
      have htail := ih rest2 (by simpa using hlen) (fun i => by simpa using hpt (i + 1))
      simp only [recsWf, List.all_cons] at htail ⊢
      rw [h0, htail]

/-- One merge step leaves the position of every name unchanged. -/
theorem mergeStep_lastIdx (ms : List PyRec) (u : String × Prices) (n : String) :
    lastIdxWithName (mergeStep ms u).1 n = lastIdxWithName ms n :=
  lastIdx_congr (mergeStep ms u).1 ms (mergeStep_length ms u)
    (fun i => mergeStep_frame ms u i "model" (by decide) (by decide)) n

/-- A whole merge run leaves the position of every name unchanged. -/
theorem mergeRun_lastIdx (us : List (String × Prices)) (ms : List PyRec) (n : String) :
    lastIdxWithName (mergeRun ms us).1 n = lastIdxWithName ms n :=
  lastIdx_congr (mergeRun ms us).1 ms (mergeRun_length us ms)
    (fun i => mergeRun_frame us ms i "model" (by decide) (by decide)) n

/-- A whole merge run preserves well-formedness of the dataset. -/
theorem mergeRun_recsWf (us : List (String × Prices)) (ms : List PyRec) :
    recsWf (mergeRun ms us).1 = recsWf ms :=
  recsWf_congr (mergeRun ms us).1 ms (mergeRun_length us ms)
    (fun i => mergeRun_frame us ms i "model" (by decide) (by decide))

/-- A name indexed at a position really lives there: the record at that
position exists and carries the name. -/
theorem lastIdx_some (ms : List PyRec) : ∀ (n : String) (i : Nat),
    lastIdxWithName ms n = some i →
    ∃ m, ms[i]? = some m ∧ modelNameIs m n = true := by
  induction ms with
  | nil => intro n i h; simp [lastIdxWithName] at h
  | cons m rest ih =>
    intro n i h
    cases hr : lastIdxWithName rest n with
    | some j =>
      simp only [lastIdxWithName, hr] at h
      injection h with h2
      subst h2
      obtain ⟨mm, hg, hmn⟩ := ih n j hr
      refine ⟨mm, ?_, hmn⟩
      rw [List.getElem?_cons_succ]
      exact hg
    | none =>
      simp only [lastIdxWithName, hr] at h
      by_cases hm : modelNameIs m n = true
      · rw [if_pos hm] at h
        injection h with h2
        subst h2
        refine ⟨m, ?_, hm⟩
        rw [List.getElem?_cons_zero]
      · rw [if_neg hm] at h
        exact Option.noConfusion h

/-- A record whose name is not the updated one is left untouched by one
merge step. -/
theorem mergeStep_preserve (ms : List PyRec) (u : String × Prices) (i : Nat) (mi : PyRec)
    (hget : ms[i]? = some mi) (h : modelNameIs mi u.1 = false) :
    ((mergeStep ms u).1)[i]? = some mi := by
  cases hL : lastIdxWithName ms u.1 with
  | none => simp [mergeStep, hL, hget]
  | some j =>
    cases hg : ms[j]? with
    | none => simp [mergeStep, hL, hg, hget]
    | some mj =>
      have hij : j ≠ i := by
        intro e
        obtain ⟨mm, hgg, hmn⟩ := lastIdx_some ms u.1 j hL
        rw [e, hget] at hgg
        injection hgg with hh
        rw [← hh] at hmn
        rw [hmn] at h
        exact Bool.noConfusion h
      simp [mergeStep, hL, hg, List.getElem?_set_ne hij, hget]

/-- A record whose name occurs in no update entry is left untouched by a
whole merge run. -/
theorem mergeRun_preserve (us : List (String × Prices)) : ∀ (ms : List PyRec) (i : Nat) (mi : PyRec),
    ms[i]? = some mi →
    (∀ p ∈ us, modelNameIs mi p.1 = false) →
    ((mergeRun ms us).1)[i]? = some mi := by
  induction us with
  | nil => intro ms i mi hget _; exact hget
  | cons u rest ih =>
    intro ms i mi hget hall
    show ((mergeRun (mergeStep ms u).1 rest).1)[i]? = some mi
    apply ih
    · exact mergeStep_preserve ms u i mi hget (hall u (by simp))
    · intro p hp
      exact hall p (by simp [hp])

/-- Running the merge loop a second time over the result of a first run,
with the same duplicate-free update set, leaves the dataset unchanged;
and when every update name is present in the starting dataset, the second
run also produces no change line at all. -/
theorem mergeRun_idem (us : List (String × Prices)) : ∀ (ms : List PyRec),
    (us.map Prod.fst).Nodup →
    (mergeRun (mergeRun ms us).1 us).1 = (mergeRun ms us).1
    ∧ ((∀ p ∈ us, (lastIdxWithName ms p.1).isSome = true) →
        (mergeRun (mergeRun ms us).1 us).2 = []) := by
  induction us with
  | nil => intro ms _; exact ⟨rfl, fun _ => rfl⟩
  | cons u rest ih =>
    intro ms hnd
    simp only [List.map_cons, List.nodup_cons] at hnd
    obtain ⟨hu, hrest⟩ := hnd
    cases hL : lastIdxWithName ms u.1 with
    | none =>
      have hs : mergeStep ms u = (ms, [newModelLine u.1]) := by
        simp [mergeStep, hL]
      have hfirst1 : (mergeRun ms (u :: rest)).1 = (mergeRun ms rest).1 := by
        show (mergeRun (mergeStep ms u).1 rest).1 = (mergeRun ms rest).1
        rw [hs]
      have hL2 : lastIdxWithName (mergeRun ms (u :: rest)).1 u.1 = none := by
        rw [hfirst1, mergeRun_lastIdx]
        exact hL
      have hs2 : mergeStep (mergeRun ms (u :: rest)).1 u
          = ((mergeRun ms (u :: rest)).1, [newModelLine u.1]) := by
        simp [mergeStep, hL2]
      constructor
      · show (mergeRun (mergeStep (mergeRun ms (u :: rest)).1 u).1 rest).1
          = (mergeRun ms (u :: rest)).1
        rw [hs2, hfirst1]
        exact (ih ms hrest).1
      · intro hpres
        exfalso
        have hsome := hpres u (by simp)
        rw [hL] at hsome
        exact Bool.noConfusion hsome
    | some i =>
      obtain ⟨mi, hget, hmn⟩ := lastIdx_some ms u.1 i hL
      have hmodel1 : getField (updateModel mi u.1 u.2).1 "model" = some (PyVal.vstr u.1) := by
        rw [updateModel_getField_ne _ _ _ _ (by decide) (by decide)]
        exact of_decide_eq_true hmn
      have hlt : i < ms.length := by
        rcases List.getElem?_eq_some_iff.mp hget with ⟨h, _⟩
        exact h
      have hs : mergeStep ms u
          = (ms.set i (updateModel mi u.1 u.2).1, (updateModel mi u.1 u.2).2) := by
        simp [mergeStep, hL, hget]
      have hms1get : (mergeStep ms u).1[i]? = some (updateModel mi u.1 u.2).1 := by
        rw [hs]
        exact List.getElem?_set_self (by simpa using hlt)
      have hDget : ((mergeRun (mergeStep ms u).1 rest).1)[i]?
          = some (updateModel mi u.1 u.2).1 := by
        apply mergeRun_preserve rest _ i _ hms1get
        intro p hp
        have hne : p.1 ≠ u.1 := by
          intro e
          apply hu
          rw [← e]
          exact List.mem_map_of_mem Prod.fst hp
        have hnot : ¬ (getField (updateModel mi u.1 u.2).1 "model"
            = some (PyVal.vstr p.1)) := by
          rw [hmodel1]
          intro hcon
          injection hcon with hcon2
          injection hcon2 with hcon3
          exact hne hcon3.symm
        unfold modelNameIs
        exact decide_eq_false hnot
      have hfirst1 : (mergeRun ms (u :: rest)).1 = (mergeRun (mergeStep ms u).1 rest).1 := rfl
      have hL2 : lastIdxWithName (mergeRun ms (u :: rest)).1 u.1 = some i := by
        rw [hfirst1, mergeRun_lastIdx, mergeStep_lastIdx]
        exact hL
      have hid := updateModel_idem mi u.1 u.2
      have hs2 : mergeStep (mergeRun ms (u :: rest)).1 u = ((mergeRun ms (u :: rest)).1, []) := by
        have hDget2 : (mergeRun ms (u :: rest)).1[i]? = some (updateModel mi u.1 u.2).1 := by
          rw [hfirst1]
          exact hDget
        simp only [mergeStep, hL2, hDget2, hid]
        rw [listSetSame _ i _ hDget2]
      constructor
      · show (mergeRun (mergeStep (mergeRun ms (u :: rest)).1 u).1 rest).1
          = (mergeRun ms (u :: rest)).1
        rw [hs2]
        show (mergeRun (mergeRun (mergeStep ms u).1 rest).1 rest).1 = (mergeRun ms (u :: rest)).1
        rw [(ih (mergeStep ms u).1 hrest).1]
        exact hfirst1.symm
      · intro hpres
        show (mergeStep (mergeRun ms (u :: rest)).1 u).2
            ++ (mergeRun (mergeStep (mergeRun ms (u :: rest)).1 u).1 rest).2 = []
        rw [hs2]
        show [] ++ (mergeRun (mergeRun (mergeStep ms u).1 rest).1 rest).2 = []
        rw [List.nil_append]
        apply (ih (mergeStep ms u).1 hrest).2
        intro p hp
        rw [mergeStep_lastIdx]
        exact hpres p (by simp [hp])

/-! ## Refresh helper: claim theorems -/

/-- C5 (amended): merge is idempotent on the dataset — whenever two
successive `merge_updates` runs with the same duplicate-free update set
both succeed, the second run returns the dataset of the first unchanged;
and when additionally every update name is present in the original
dataset, the second run reports zero change lines.  (When an update name
is absent, the second run repeats the new-model notice, so its change
list is then nonempty.) -/
theorem merge_idempotent (models : List PyRec) (updates : List (String × Prices))
    (d d2 : List PyRec) (c₁ c₂ : List String)
    (hnd : (updates.map Prod.fst).Nodup)
    (h1 : merge_updates models updates = some (d, c₁))
    (h2 : merge_updates d updates = some (d2, c₂)) :
    d2 = d ∧ ((∀ p ∈ updates, (lastIdxWithName models p.1).isSome = true) → c₂ = []) := by
  simp only [merge_updates] at h1 h2
  split at h1
  · injection h1 with h1
    split at h2
    · injection h2 with h2
      have hd : d = (mergeRun models updates).1 := by rw [h1]
      have hc : d2 = (mergeRun d updates).1 := by rw [h2]
      have hc2 : c₂ = (mergeRun d updates).2 := by rw [h2]
      have hcore := mergeRun_idem updates models hnd
      constructor
      · rw [hc, hd]
        exact hcore.1
      · intro hpres
        rw [hc2, hd]
        exact hcore.2 hpres
    · exact absurd h2 (by simp)
  · exact absurd h1 (by simp)

/-- Dataset for the merge scenarios: one record for `gpt-4o` carrying a
stored input price of 2.5 next to untouched non-price fields. -/
def D5 : List PyRec :=
  [[("model", PyVal.vstr "gpt-4o"), ("input_per_mtok", PyVal.vfloat (mkRat 5 2))]]

/-- Update set assigning `gpt-4o` an input price of 2.00. -/
def U5 : List (String × Prices) := [("gpt-4o", ⟨some (mkRat 2 1), none⟩)]

/-- Dataset produced by merging `U5` into `D5`. -/
def D5res : List PyRec :=
  [[("model", PyVal.vstr "gpt-4o"), ("input_per_mtok", PyVal.vfloat (mkRat 2 1))]]

/-- Witness for C5: on the concrete scenario both runs succeed, the
second returns the dataset of the first with an empty change list. -/
theorem merge_idempotent_witness :
    D5res = D5res ∧ ((∀ p ∈ U5, (lastIdxWithName D5 p.1).isSome = true)
      → ([] : List String) = []) :=
  merge_idempotent D5 U5 D5res D5res ["  gpt-4o: input_per_mtok $2.5 -> $2.0"] []
    (by decide) (by decide) (by decide)

/-- Counterexample to C5 as stated: with the update set naming a model
absent from the (empty) dataset, the first run leaves the dataset
unchanged, so the second application is the same call — and it reports
the new-model notice again, not zero change lines. -/
theorem merge_idempotent_counterexample :
    merge_updates ([] : List PyRec) [("x", (⟨none, none⟩ : Prices))]
      = some ([], [newModelLine "x"]) ∧
    [newModelLine "x"] ≠ ([] : List String) :=
  ⟨by decide, by decide⟩

/-- C6: merge is field-level non-destructive — on a well-formed dataset
it succeeds, preserves the number of records, and leaves every field
other than the two price fields of every record exactly as it was; and a
parsed model name absent from the dataset produces only the new-model
notice without mutating the dataset. -/
theorem merge_nondestructive (models : List PyRec) (updates : List (String × Prices))
    (hwf : recsWf models = true) :
    (∃ res, merge_updates models updates = some res ∧
      res.1.length = models.length ∧
      ∀ (i : Nat) (k : String), k ≠ "input_per_mtok" → k ≠ "output_per_mtok" →
        (res.1[i]?).map (fun m => getField m k) = (models[i]?).map (fun m => getField m k))
    ∧ ∀ (name : String) (p : Prices), lastIdxWithName models name = none →
        merge_updates models [(name, p)] = some (models, [newModelLine name]) := by
  constructor
  · refine ⟨mergeRun models updates, ?_, ?_, ?_⟩
    · simp [merge_updates, hwf]
    · exact mergeRun_length updates models
    · intro i k h1 h2
      exact mergeRun_frame updates models i k h1 h2
  · intro name p hnone
    have hstep : mergeStep models (name, p) = (models, [newModelLine name]) := by
      simp [mergeStep, hnone]
    simp [merge_updates, hwf, mergeRun, hstep]

/-- Dataset with one well-formed record carrying a non-price field. -/
def D6 : List PyRec :=
  [[("model", PyVal.vstr "gpt-4o"), ("notes", PyVal.vstr "flagship")]]

/-- Witness for C6: the concrete dataset is well-formed and merging an
update for an absent model name returns it unchanged with only the
notice. -/
theorem merge_nondestructive_witness :
    recsWf D6 = true ∧
    merge_updates D6 [("brand-new", (⟨some (mkRat 1 1), none⟩ : Prices))]
      = some (D6, [newModelLine "brand-new"]) :=
  ⟨by decide,
   (merge_nondestructive D6 [("brand-new", ⟨some (mkRat 1 1), none⟩)] (by decide)).2
     "brand-new" ⟨some (mkRat 1 1), none⟩ (by decide)⟩

/-- Dataset for the C7 scenario: `gpt-4o` with input price 2.5 and
further fields. -/
def D7 : List PyRec :=
  [[("model", PyVal.vstr "gpt-4o"), ("input_per_mtok", PyVal.vfloat (mkRat 5 2)),
    ("output_per_mtok", PyVal.vfloat (mkRat 10 1)), ("context_window", PyVal.vint 128000),
    ("notes", PyVal.vstr "flagship")]]

/-- The C7 update set: `gpt-4o` gets input price 2.00 (as a Python
float, equal to 2.0). -/
def U7 : List (String × Prices) := [("gpt-4o", ⟨some (mkRat 2 1), none⟩)]

/-- Counterexample to C7 as stated: the change line the code produces is
`  gpt-4o: input_per_mtok $2.5 -> $2.0` — with the two-space indent of
the f-string and Python rendering of the float 2.00 as `2.0` — which is
not the claimed line `gpt-4o: input_per_mtok $2.5 -> $2.00`. -/
theorem merge_example_counterexample :
    merge_updates D7 U7
      = some ([[("model", PyVal.vstr "gpt-4o"), ("input_per_mtok", PyVal.vfloat (mkRat 2 1)),
                ("output_per_mtok", PyVal.vfloat (mkRat 10 1)),
                ("context_window", PyVal.vint 128000),
                ("notes", PyVal.vstr "flagship")]],
              ["  gpt-4o: input_per_mtok $2.5 -> $2.0"]) ∧
    ("  gpt-4o: input_per_mtok $2.5 -> $2.0" : String)
      ≠ "gpt-4o: input_per_mtok $2.5 -> $2.00" :=
  ⟨by decide, by decide⟩

/-- C7 (amended): merging the update set assigning `gpt-4o` the input
price 2.00 into the dataset storing 2.5 yields a record whose
`input_per_mtok` is 2.0 with every other field unchanged, and reports the
single change line `  gpt-4o: input_per_mtok $2.5 -> $2.0`. -/
theorem merge_example_amended :
    merge_updates D7 U7
      = some ([[("model", PyVal.vstr "gpt-4o"), ("input_per_mtok", PyVal.vfloat (mkRat 2 1)),
                ("output_per_mtok", PyVal.vfloat (mkRat 10 1)),
                ("context_window", PyVal.vint 128000),
                ("notes", PyVal.vstr "flagship")]],
              ["  gpt-4o: input_per_mtok $2.5 -> $2.0"]) := by
  decide

/-- C10: every one of the seven provider parsers returns the empty
update mapping on every input page text, and merging an empty update set
into any well-formed dataset changes nothing and reports nothing — so a
refresh run can never alter a price field. -/
theorem parsers_return_empty :
    (∀ pr ∈ PARSERS, ∀ html, pr.2 html = ([] : List (String × Prices)))
    ∧ (∀ models : List PyRec, recsWf models = true →
        merge_updates models [] = some (models, [])) := by
  constructor
  · intro pr hpr html
    simp only [PARSERS, List.mem_cons, List.not_mem_nil, or_false] at hpr
    rcases hpr with rfl | rfl | rfl | rfl | rfl | rfl | rfl <;> rfl
  · intro models hwf
    simp [merge_updates, hwf, mergeRun]

/-- Witness for C10: the DeepSeek parser returns nothing even on a page
text matching its price regex, and the empty merge is the identity on a
concrete dataset. -/
theorem parsers_return_empty_witness :
    parse_deepseek "pricing: $0.28 per million tokens" = [] ∧
    merge_updates ([] : List PyRec) [] = some ([], []) :=
  ⟨parsers_return_empty.1 ("deepseek", parse_deepseek)
      (List.Mem.tail _ (List.Mem.tail _ (List.Mem.tail _ (List.Mem.tail _ (List.Mem.head _)))))
      "pricing: $0.28 per million tokens",
   parsers_return_empty.2 [] rfl⟩
